import Mathlib

/-
Verification development for the powermeter-lora firmware.
The Rust sources are shallowly embedded: machine integers become Nat with
explicit wrap-around where the source can overflow, fallible or panicking
paths become Option, and the serial byte stream / LoRa downlink payloads
become lists of byte values. Float-typed fields are carried as their 32-bit
bit patterns where only their encoding matters, and as exact rationals where
the decimal parsing arithmetic matters.
-/

namespace PowermeterLora

/-! ## Definitions: downlink handling (src/main.rs lines 246-266) -/

/-- Number of S0 pulse channels, from src/main.rs: S0_CHANNEL_COUNT = 6. -/
def S0_CHANNEL_COUNT : Nat := 6

/-- Embedding of Rust u64::from_le_bytes on a byte list: little-endian base-256. -/
def u64FromLeBytes (bs : List Nat) : Nat :=
  bs.foldr (fun b acc => b + 256 * acc) 0

/-- Embedding of the fport mapping at main.rs line 253:
the expression (data.fport - 1) as usize, where data.fport is a u8, so the
subtraction wraps modulo 2^8 before the cast widens the value. -/
def counterToUpdate (fport : Nat) : Nat :=
  (fport + 255) % 256

/-- Embedding of the downlink handling block at main.rs lines 253-265.
The live S0_COUNTERS array is passed in as a list of length 6; the result is
some of the new counter list when the block runs to completion, and none when
the block panics (indexing S0_COUNTERS out of bounds). The source first
rejects when counter_to_update > S0_CHANNEL_COUNT (a strict greater-than), then
rejects when the payload length is not 8, and otherwise stores the
little-endian value into S0_COUNTERS at counter_to_update. -/
def applyDownlink (counters : List Nat) (fport : Nat) (payload : List Nat) :
    Option (List Nat) :=
  let c := counterToUpdate fport
  if c > S0_CHANNEL_COUNT then
    some counters
  else if payload.length ≠ 8 then
    some counters
  else if c < counters.length then
    some (counters.set c (u64FromLeBytes payload))
  else
    none

/-! ## Definitions: sentence byte cleaning (src/iec62056.rs lines 107-111) -/

/-- Embedding of the byte-cleaning pass in get_data: a byte is replaced by
zero when in_byte >= 0x7F, otherwise kept. -/
def cleanByte (b : Nat) : Nat :=
  if 0x7F ≤ b then 0 else b

/-- The cleaning pass applied to a whole sentence buffer. -/
def cleanSentence (bs : List Nat) : List Nat :=
  bs.map cleanByte

/-! ## Definitions: frame encoder (src/main.rs lines 60-72 and 213-236) -/

/-- Little-endian 4-byte encoding of a 32-bit word, as bincode emits an f32
bit pattern under its standard (little-endian) configuration. -/
def u32LeBytes (x : Nat) : List Nat :=
  [x % 256, x / 256 % 256, x / 65536 % 256, x / 16777216 % 256]

/-- Embedding of the Transmission struct of main.rs. Each f32 field is carried
as its 32-bit bit pattern, since only the encoded bytes matter here. -/
structure Transmission where
  flash_wear_fraction : Nat
  temperature : Nat
  main_meter_kwh : Nat
  counter_0_kwh : Nat
  counter_1_kwh : Nat
  counter_2_kwh : Nat
  counter_3_kwh : Nat
  counter_4_kwh : Nat
  counter_5_kwh : Nat

/-- The bit pattern of f32::NAN in Rust: 0x7FC00000. -/
def F32_NAN : Nat := 0x7FC00000

/-- Embedding of encode_into_slice with bincode config::standard() applied to
a Transmission: each f32 field is written as its 4 little-endian bytes, in
declaration order, for a fixed 36-byte output. -/
def encodeTransmission (t : Transmission) : List Nat :=
  u32LeBytes t.flash_wear_fraction ++ u32LeBytes t.temperature ++
  u32LeBytes t.main_meter_kwh ++ u32LeBytes t.counter_0_kwh ++
  u32LeBytes t.counter_1_kwh ++ u32LeBytes t.counter_2_kwh ++
  u32LeBytes t.counter_3_kwh ++ u32LeBytes t.counter_4_kwh ++
  u32LeBytes t.counter_5_kwh

/-- Embedding of the Transmission construction at main.rs lines 213-227: the
main_meter_kwh field is f32::NAN when the meter reading is absent, and the six
counter fields come from the counter_kwh array. -/
def mkTransmission (wear temp : Nat) (meter_energy : Option Nat)
    (counter_kwh : List Nat) : Transmission :=
  { flash_wear_fraction := wear
    temperature := temp
    main_meter_kwh :=
      match meter_energy with
      | none => F32_NAN
      | some val => val
    counter_0_kwh := counter_kwh.getD 0 0
    counter_1_kwh := counter_kwh.getD 1 0
    counter_2_kwh := counter_kwh.getD 2 0
    counter_3_kwh := counter_kwh.getD 3 0
    counter_4_kwh := counter_kwh.getD 4 0
    counter_5_kwh := counter_kwh.getD 5 0 }

/-! ## Definitions: counter store (src/main.rs lines 175-181 and 281-289) -/

/-- Embedding of the CounterValues record persisted to flash. -/
structure CounterValues where
  counts : List Nat

/-- Embedding of the persist step at main.rs lines 281-289: snapshot the six
live counters and write them as one record. -/
def persistCounters (live : List Nat) : CounterValues :=
  { counts := live }

/-- Embedding of the boot merge at main.rs lines 175-181: for each channel,
fetch_add the stored value into the corresponding live atomic counter. The
counters are AtomicU64, so the addition wraps modulo 2 ^ 64. -/
def bootMerge (stored : CounterValues) (live : List Nat) : List Nat :=
  List.zipWith (fun l s => (l + s) % 2 ^ 64) live stored.counts

/-! ## Definitions: join state machine (src/main.rs lines 304-365) -/

/-- Observable events of the join loop: a join attempt, or a timer wait of a
given number of seconds. -/
inductive JoinEvent where
  | attempt : JoinEvent
  | wait : Nat → JoinEvent
deriving DecidableEq

/-- Embedding of join_network in main.rs. The environment is a finite list of
join outcomes (true = JoinSuccess, false = NoJoinAccept or error); the result
is the trace of attempts and waits when one of the supplied outcomes is a
success, and none when the loop is still running after consuming them all.
The loop starts with join_attempt_count = 0, breaks on success, and otherwise
waits 2 ^ join_attempt_count seconds and increments the count only while it is
below 11. -/
def join_network : List Bool → Nat → Option (List JoinEvent)
  | [], _ => none
  | outcome :: rest, join_attempt_count =>
    if outcome then
      some [JoinEvent.attempt]
    else
      (join_network rest
          (if join_attempt_count < 11 then join_attempt_count + 1
           else join_attempt_count)).map
        (fun t => JoinEvent.attempt ::
          JoinEvent.wait (2 ^ join_attempt_count) :: t)

/-- The closed form of the join trace: starting from attempt count c, after k
failures the trace is k blocks of attempt-then-wait followed by the final
successful attempt, the i-th wait lasting 2 ^ min (c + i) 11 seconds. -/
def joinTraceFrom (c k : Nat) : List JoinEvent :=
  ((List.range k).map
    (fun i =>
      [JoinEvent.attempt, JoinEvent.wait (2 ^ min (c + i) 11)])).flatten
  ++ [JoinEvent.attempt]

/-! ## Definitions: meter field parsers (src/iec62056.rs lines 179-218) -/

/-- Numeric value of an ascii decimal digit character, none for any other
character. -/
def digitVal (c : Char) : Option Nat :=
  if '0' ≤ c ∧ c ≤ '9' then some (c.toNat - 48) else none

/-- Accumulator loop for decimal digit strings. -/
def parseDigitsAux : List Char → Nat → Option Nat
  | [], acc => some acc
  | c :: rest, acc =>
    match digitVal c with
    | none => none
    | some d => parseDigitsAux rest (acc * 10 + d)

/-- Embedding of Rust unsigned from_str: an optional leading plus sign, then
at least one ascii digit, failing when the value reaches the type bound. -/
def uintFromStr (bound : Nat) (s : List Char) : Option Nat :=
  let digits :=
    match s with
    | '+' :: rest => rest
    | _ => s
  if digits.isEmpty then none
  else
    match parseDigitsAux digits 0 with
    | none => none
    | some v => if v < bound then some v else none

/-- Embedding of u64::from_str. -/
def u64FromStr (s : List Char) : Option Nat :=
  uintFromStr (2 ^ 64) s

/-- Embedding of u32::from_str. -/
def u32FromStr (s : List Char) : Option Nat :=
  uintFromStr (2 ^ 32) s

/-- Embedding of parse_meter_id in iec62056.rs: find the first opening
parenthesis, find the first closing parenthesis after it, and parse the text
between them as a u64. -/
def parse_meter_id (s : List Char) : Option Nat :=
  match s.findIdx? (· == '(') with
  | none => none
  | some start =>
    match (s.drop start).findIdx? (· == ')') with
    | none => none
    | some stop => u64FromStr ((s.drop (start + 1)).take (stop - 1))

/-- The string-processing stage of parse_energy_value in iec62056.rs: take
the text between the first opening parenthesis and the first asterisk after
it, split it at the first decimal point, and parse both parts as u32,
returning the integer part, the fraction part, and the digit count of the
fraction part. -/
def parse_energy_fields (s : List Char) : Option (Nat × Nat × Nat) :=
  match s.findIdx? (· == '(') with
  | none => none
  | some start =>
    match (s.drop start).findIdx? (· == '*') with
    | none => none
    | some stop =>
      let numeric := (s.drop (start + 1)).take (stop - 1)
      match numeric.findIdx? (· == '.') with
      | none => none
      | some dotIdx =>
        let int_part := numeric.take dotIdx
        let frac_part := numeric.drop (dotIdx + 1)
        match u32FromStr int_part, u32FromStr frac_part with
        | some int_val, some frac_val =>
          some (int_val, frac_val, frac_part.length)
        | _, _ => none

/-- Embedding of parse_energy_value in iec62056.rs: the fields of
parse_energy_fields recombined as integer + fraction / 10 ^ digits. The f32
arithmetic of the source is carried out exactly in the rationals. -/
def parse_energy_value (s : List Char) : Option ℚ :=
  (parse_energy_fields s).map
    (fun f => (f.1 : ℚ) + (f.2.1 : ℚ) / (10 : ℚ) ^ f.2.2)

/-! ## Definitions: sentence framing (src/iec62056.rs lines 62-93) -/

/-- Length of the sentence buffer, from iec62056.rs. -/
def METER_SENTENCE_LENGTH : Nat := 64

/-- Embedding of the read loop of read_meter_sentence. The first argument is
the remaining byte stream, the second the bytes written to the buffer since
the last reset. On the linefeed byte 10 the source returns with the buffer
holding the written bytes followed by the zeroes the reset left behind; when
the buffer fills without a linefeed it is zeroed and the position reset to 0;
when the stream is exhausted the loop is still awaiting bytes, modelled as
none. -/
def readSentenceLoop : List Nat → List Nat → Option (List Nat × List Nat)
  | [], _ => none
  | b :: rest, buf =>
    if b = 10 then
      some (buf ++ [b] ++
        List.replicate (METER_SENTENCE_LENGTH - (buf.length + 1)) 0, rest)
    else if buf.length + 1 = METER_SENTENCE_LENGTH then
      readSentenceLoop rest []
    else
      readSentenceLoop rest (buf ++ [b])

/-- Embedding of read_meter_sentence: run the loop from an empty, zeroed
buffer; the result is the filled 64-byte buffer and the unconsumed stream. -/
def read_meter_sentence (stream : List Nat) : Option (List Nat × List Nat) :=
  readSentenceLoop stream []

/-! ## Definitions: sentence classification loop (src/iec62056.rs 95-176) -/

/-- Embedding of the MeterData struct with its Default of all zeroes. The two
energy fields are carried as exact rationals. -/
structure MeterData where
  meter_id : Nat
  total_in : ℚ
  total_out : ℚ
deriving DecidableEq

/-- The Default::default() value of MeterData. -/
def meterDataDefault : MeterData :=
  { meter_id := 0, total_in := 0, total_out := 0 }

/-- A sentence whose first three characters are 1.8 or 2.8; receiving one
makes get_data return. -/
def isTerminal (s : List Char) : Prop :=
  s.take 3 = "1.8".data ∨ s.take 3 = "2.8".data

instance (s : List Char) : Decidable (isTerminal s) := by
  unfold isTerminal
  infer_instance

/-- Embedding of the sentence loop of get_data, over the list of framed and
byte-cleaned sentences the serial link delivers. A C.1 sentence updates the
meter id and the loop continues; a 1.8 sentence updates total_in when its
five-character head is 1.8.0 and returns; a 2.8 sentence updates total_out and
returns; anything else is skipped. A failed field parse leaves the field as it
was. Exhausting the list without a terminating sentence means the source is
still reading, modelled as none. -/
def getDataLoop : List (List Char) → MeterData → Option MeterData
  | [], _ => none
  | s :: rest, result =>
    if s.take 3 = "C.1".data then
      getDataLoop rest
        { result with meter_id := (parse_meter_id s).getD result.meter_id }
    else if s.take 3 = "1.8".data then
      some (if s.take 5 = "1.8.0".data then
        { result with total_in := (parse_energy_value s).getD result.total_in }
      else result)
    else if s.take 3 = "2.8".data then
      some { result with
        total_out := (parse_energy_value s).getD result.total_out }
    else
      getDataLoop rest result

/-- Embedding of get_data: run the sentence loop from the default result. -/
def get_data (sentences : List (List Char)) : Option MeterData :=
  getDataLoop sentences meterDataDefault

/-! ## Theorems -/

/-- C1: the code evaluated at the failing input. A downlink with fport 7 maps
to channel index 6, which is outside the valid range 0..5, yet the range check
(strict greater-than against 6) lets it through and the subsequent array index
panics, modelled as none, instead of leaving the counters unchanged. -/
theorem downlink_fport7_panics :
    applyDownlink [0, 0, 0, 0, 0, 0] 7 [1, 2, 3, 4, 5, 6, 7, 8] = none ∧
    counterToUpdate 7 = 6 ∧
    ¬ counterToUpdate 7 < S0_CHANNEL_COUNT := by
  decide

/-- C2: on the valid path (mapped index in range, payload exactly 8 bytes), the
downlink overwrites exactly the addressed counter with the little-endian u64
payload value and leaves every other counter unchanged. -/
theorem downlink_valid_path (counters : List Nat) (fport : Nat)
    (payload : List Nat)
    (hidx : counterToUpdate fport < S0_CHANNEL_COUNT)
    (hlen : payload.length = 8)
    (hcnt : counters.length = 6) :
    applyDownlink counters fport payload =
      some (counters.set (counterToUpdate fport) (u64FromLeBytes payload)) ∧
    (counters.set (counterToUpdate fport)
        (u64FromLeBytes payload))[counterToUpdate fport]? =
      some (u64FromLeBytes payload) ∧
    ∀ j, j ≠ counterToUpdate fport →
      (counters.set (counterToUpdate fport) (u64FromLeBytes payload))[j]? =
        counters[j]? := by
  have h6 : counterToUpdate fport < 6 := hidx
  refine ⟨?_, ?_, ?_⟩
  · unfold applyDownlink
    simp only [S0_CHANNEL_COUNT] at h6 ⊢
    rw [if_neg (by omega), if_neg (by simp [hlen]), if_pos (by omega)]
  · exact List.getElem?_set_eq_of_lt _ (by omega)
  · intro j hj
    exact List.getElem?_set_ne (fun h => hj h.symm)

/-- C2 witness: a concrete valid downlink (fport 3 maps to channel 2, payload
the little-endian encoding of 9) overwrites channel 2 with 9. -/
theorem downlink_valid_path_witness :
    applyDownlink [1, 2, 3, 4, 5, 6] 3 [9, 0, 0, 0, 0, 0, 0, 0] =
      some ([1, 2, 3, 4, 5, 6].set (counterToUpdate 3)
        (u64FromLeBytes [9, 0, 0, 0, 0, 0, 0, 0])) ∧
    ([1, 2, 3, 4, 5, 6].set (counterToUpdate 3)
        (u64FromLeBytes [9, 0, 0, 0, 0, 0, 0, 0]))[counterToUpdate 3]? =
      some (u64FromLeBytes [9, 0, 0, 0, 0, 0, 0, 0]) ∧
    ∀ j, j ≠ counterToUpdate 3 →
      ([1, 2, 3, 4, 5, 6].set (counterToUpdate 3)
          (u64FromLeBytes [9, 0, 0, 0, 0, 0, 0, 0]))[j]? =
        ([1, 2, 3, 4, 5, 6] : List Nat)[j]? :=
  downlink_valid_path [1, 2, 3, 4, 5, 6] 3 [9, 0, 0, 0, 0, 0, 0, 0]
    (by decide) (by decide) (by decide)

/-- C10: a downlink with fport 0 wraps to mapped index 255 under the u8
subtraction; 255 fails the range check, so the downlink is rejected and the
counters are returned unchanged, for every counter state and payload. -/
theorem downlink_fport0_rejected :
    counterToUpdate 0 = 255 ∧
    counterToUpdate 0 > S0_CHANNEL_COUNT ∧
    ∀ (counters payload : List Nat),
      applyDownlink counters 0 payload = some counters := by
  refine ⟨rfl, by decide, ?_⟩
  intro counters payload
  unfold applyDownlink
  rw [if_pos (by decide)]

/-- C4 counterexample: the claim says a byte whose top bit is clear passes
through unchanged, but the source zeroes every byte greater than or equal to
0x7F, and 0x7F = 127 has its top bit clear yet is zeroed. -/
theorem cleanByte_claim_false :
    ¬ (Nat.testBit 127 7 = false → cleanByte 127 = 127) := by
  decide

/-- C4 amended: a byte is zeroed if and only if its value is at least 0x7F,
that is, when its top bit is set or it is exactly the DEL byte 0x7F; every
byte below 0x7F passes through unchanged. -/
theorem cleanByte_amended (b : Nat) (hb : b < 256) :
    (Nat.testBit b 7 = true → cleanByte b = 0) ∧
    cleanByte 127 = 0 ∧
    (b < 127 → cleanByte b = b) ∧
    (cleanByte b = 0 ↔ 127 ≤ b ∨ b = 0) := by
  have htb : Nat.testBit b 7 = decide (b / 128 % 2 = 1) := by
    rw [Nat.testBit_to_div_mod]
  refine ⟨?_, by decide, ?_, ?_⟩
  · intro htop
    rw [htb] at htop
    have hd : b / 128 % 2 = 1 := of_decide_eq_true htop
    rw [cleanByte, if_pos (by omega)]
  · intro hlt
    rw [cleanByte, if_neg (by omega)]
  · rw [cleanByte]
    by_cases h : 127 ≤ b
    · rw [if_pos h]
      simp [h]
    · rw [if_neg h]
      constructor
      · exact fun hz => Or.inr hz
      · rintro (hc | hc)
        · exact absurd hc h
        · exact hc

/-- C4 witness: the amended statement evaluated at the concrete byte 0x80,
whose top bit is set and which is zeroed. -/
theorem cleanByte_amended_witness :
    (Nat.testBit 128 7 = true → cleanByte 128 = 0) ∧
    cleanByte 127 = 0 ∧
    (128 < 127 → cleanByte 128 = 128) ∧
    (cleanByte 128 = 0 ↔ 127 ≤ 128 ∨ 128 = 0) :=
  cleanByte_amended 128 (by decide)

/-- C5: for every input set the encoded frame has the constant length 36,
which is at most the 49-byte ceiling; encoding is deterministic; and an absent
meter reading encodes the main-meter field (bytes 8 to 11) as the f32 NaN bit
pattern. -/
theorem encodeTransmission_spec (wear temp : Nat) (meter_energy : Option Nat)
    (counter_kwh : List Nat) :
    (encodeTransmission (mkTransmission wear temp meter_energy
        counter_kwh)).length = 36 ∧
    36 ≤ 49 ∧
    (∀ t u : Transmission, t = u →
      encodeTransmission t = encodeTransmission u) ∧
    (meter_energy = none →
      ((encodeTransmission (mkTransmission wear temp meter_energy
          counter_kwh)).drop 8).take 4 = u32LeBytes F32_NAN) := by
  refine ⟨?_, by omega, fun t u h => by rw [h], ?_⟩
  · simp [encodeTransmission, u32LeBytes]
  · intro hnone
    subst hnone
    simp [encodeTransmission, mkTransmission, u32LeBytes, List.drop_append,
      List.take_append]

/-- C5 witness: the length, ceiling, determinism and NaN-encoding facts
evaluated at a concrete absent-meter input. -/
theorem encodeTransmission_spec_witness :
    (encodeTransmission (mkTransmission 0 1 none [1, 2, 3, 4, 5, 6])).length
      = 36 ∧
    36 ≤ 49 ∧
    (∀ t u : Transmission, t = u →
      encodeTransmission t = encodeTransmission u) ∧
    ((none : Option Nat) = none →
      ((encodeTransmission (mkTransmission 0 1 none
          [1, 2, 3, 4, 5, 6])).drop 8).take 4 = u32LeBytes F32_NAN) :=
  encodeTransmission_spec 0 1 none [1, 2, 3, 4, 5, 6]

/-- Helper: merging a list of u64 values into an all-zero live state of the
same length reproduces the list. -/
theorem zipWithWrap_zero (l : List Nat) (h : ∀ v ∈ l, v < 2 ^ 64) :
    List.zipWith (fun a b => (a + b) % 2 ^ 64) (List.replicate l.length 0) l
      = l := by
  induction l with
  | nil => rfl
  | cons a l ih =>
    have ha : a < 2 ^ 64 := h a (List.mem_cons_self a l)
    have hrest : ∀ v ∈ l, v < 2 ^ 64 :=
      fun v hv => h v (List.mem_cons_of_mem _ hv)
    simp only [List.length_cons, List.replicate_succ,
      List.zipWith_cons_cons, Nat.zero_add]
    rw [Nat.mod_eq_of_lt ha, ih hrest]

/-- Helper: the wrapped merge commutes, so the live-first sum of the source
equals the stored-first sum of the specification. -/
theorem zipWithWrap_comm (stored : List Nat) :
    ∀ live : List Nat,
      List.zipWith (fun l s => (l + s) % 2 ^ 64) live stored =
        List.zipWith (fun s k => (s + k) % 2 ^ 64) stored live := by
  induction stored with
  | nil => intro live; cases live <;> rfl
  | cons a l ih =>
    intro live
    cases live with
    | nil => rfl
    | cons b m =>
      simp only [List.zipWith_cons_cons, Nat.add_comm b a]
      rw [ih m]

/-- Helper: when no channel sum reaches 2 ^ 64, the wrapped merge equals the
plain sum. -/
theorem zipWithWrap_no_overflow (stored : List Nat) :
    ∀ live : List Nat,
      (∀ p ∈ List.zip stored live, p.1 + p.2 < 2 ^ 64) →
      List.zipWith (fun l s => (l + s) % 2 ^ 64) live stored =
        List.zipWith (fun s k => s + k) stored live := by
  induction stored with
  | nil => intro live _; cases live <;> rfl
  | cons a l ih =>
    intro live h
    cases live with
    | nil => rfl
    | cons b m =>
      have hab : a + b < 2 ^ 64 := h (a, b) (by
        rw [List.zip_cons_cons]
        exact List.mem_cons_self _ _)
      have hm := ih m (fun p hp => h p (by
        rw [List.zip_cons_cons]
        exact List.mem_cons_of_mem _ hp))
      simp only [List.zipWith_cons_cons]
      rw [Nat.add_comm b a, Nat.mod_eq_of_lt hab, hm]

/-- C6 counterexample: the claimed unbounded round-trip fails where the u64
fetch_add wraps. With stored channel 0 holding 2 ^ 64 - 1 (reachable, since a
downlink can store u64::MAX, which is then persisted) and one live increment,
the program leaves channel 0 at 0, not at stored plus k = 2 ^ 64. -/
theorem counterStore_roundtrip_cex :
    bootMerge (persistCounters [2 ^ 64 - 1, 0, 0, 0, 0, 0])
        [1, 0, 0, 0, 0, 0] ≠
      List.zipWith (fun s k => s + k) [2 ^ 64 - 1, 0, 0, 0, 0, 0]
        [1, 0, 0, 0, 0, 0] ∧
    (bootMerge (persistCounters [2 ^ 64 - 1, 0, 0, 0, 0, 0])
        [1, 0, 0, 0, 0, 0])[0]? = some 0 := by
  decide

/-- C6 amended: for every vector of six u64 counter values, persisting it and
boot-merging into an all-zero live state reproduces exactly the stored values;
boot-merging into a live state whose channel i has accumulated k_i increments
leaves channel i at (stored_i + k_i) mod 2 ^ 64, which equals stored_i + k_i
whenever that sum does not overflow a u64. -/
theorem counterStore_roundtrip (stored live : List Nat)
    (hs : stored.length = 6) (hl : live.length = 6)
    (hstored : ∀ v ∈ stored, v < 2 ^ 64)
    (hnowrap : ∀ p ∈ List.zip stored live, p.1 + p.2 < 2 ^ 64) :
    bootMerge (persistCounters stored) (List.replicate 6 0) = stored ∧
    bootMerge (persistCounters stored) live =
      List.zipWith (fun s k => (s + k) % 2 ^ 64) stored live ∧
    bootMerge (persistCounters stored) live =
      List.zipWith (fun s k => s + k) stored live := by
  refine ⟨?_, ?_, ?_⟩
  · simp only [bootMerge, persistCounters, ← hs]
    exact zipWithWrap_zero stored hstored
  · simp only [bootMerge, persistCounters]
    exact zipWithWrap_comm stored live
  · simp only [bootMerge, persistCounters]
    exact zipWithWrap_no_overflow stored live hnowrap

/-- C6 witness: a concrete round-trip with stored values 1..6 and a live state
that has accumulated 10, 20, 30, 40, 50, 60 increments, none of it
overflowing. -/
theorem counterStore_roundtrip_witness :
    bootMerge (persistCounters [1, 2, 3, 4, 5, 6]) (List.replicate 6 0) =
      [1, 2, 3, 4, 5, 6] ∧
    bootMerge (persistCounters [1, 2, 3, 4, 5, 6]) [10, 20, 30, 40, 50, 60] =
      List.zipWith (fun s k => (s + k) % 2 ^ 64) [1, 2, 3, 4, 5, 6]
        [10, 20, 30, 40, 50, 60] ∧
    bootMerge (persistCounters [1, 2, 3, 4, 5, 6]) [10, 20, 30, 40, 50, 60] =
      List.zipWith (fun s k => s + k) [1, 2, 3, 4, 5, 6]
        [10, 20, 30, 40, 50, 60] :=
  counterStore_roundtrip [1, 2, 3, 4, 5, 6] [10, 20, 30, 40, 50, 60]
    (by decide) (by decide) (by decide) (by decide)

/-- Helper: a run of failures never lets join_network return. -/
theorem join_network_all_false (outcomes : List Bool) (c : Nat)
    (h : ∀ b ∈ outcomes, b = false) : join_network outcomes c = none := by
  induction outcomes generalizing c with
  | nil => rfl
  | cons o rest ih =>
    have ho : o = false := h o (List.mem_cons_self o rest)
    subst ho
    simp only [join_network, Bool.false_eq_true, if_false]
    rw [ih _ (fun b hb => h b (List.mem_cons_of_mem _ hb))]
    rfl

/-- Helper: unfolding one failure block of the closed-form trace. -/
theorem joinTraceFrom_succ (c k : Nat) (hc : c ≤ 11) :
    joinTraceFrom c (k + 1) =
      JoinEvent.attempt :: JoinEvent.wait (2 ^ c) ::
        joinTraceFrom (if c < 11 then c + 1 else c) k := by
  have hmin : ∀ i : Nat, min (c + (i + 1)) 11 =
      min ((if c < 11 then c + 1 else c) + i) 11 := by
    intro i
    split <;> omega
  unfold joinTraceFrom
  rw [List.range_succ_eq_map]
  simp only [List.map_cons, List.map_map, Function.comp_def,
    Nat.succ_eq_add_one, hmin, List.flatten_cons, Nat.add_zero,
    Nat.min_eq_left hc, List.cons_append, List.nil_append]

/-- Helper: when the first k outcomes fail and the next succeeds, the join
loop started at count c yields exactly the closed-form trace. -/
theorem join_network_trace (k : Nat) (outcomes : List Bool) (c : Nat)
    (hc : c ≤ 11)
    (hpre : ∀ j, j < k → outcomes[j]? = some false)
    (hk : outcomes[k]? = some true) :
    join_network outcomes c = some (joinTraceFrom c k) := by
  induction k generalizing outcomes c with
  | zero =>
    cases outcomes with
    | nil => simp at hk
    | cons o rest =>
      have ho : o = true := by simpa using hk
      subst ho
      simp [join_network, joinTraceFrom]
  | succ k ih =>
    cases outcomes with
    | nil => simp at hk
    | cons o rest =>
      have ho : o = false := by simpa using hpre 0 (Nat.succ_pos k)
      subst ho
      have hrest : join_network rest (if c < 11 then c + 1 else c) =
          some (joinTraceFrom (if c < 11 then c + 1 else c) k) := by
        apply ih
        · split <;> omega
        · intro j hj
          simpa using hpre (j + 1) (by omega)
        · simpa using hk
      simp only [join_network, Bool.false_eq_true, if_false, hrest,
        Option.map_some']
      rw [joinTraceFrom_succ c k hc]

/-- C3: when the first k join outcomes fail and outcome k succeeds, the loop
produces the trace that begins with an attempt (no prior wait) and whose wait
after the i-th failure lasts 2 ^ min i 11 seconds, so the backoff doubles from
one second and saturates at 2048 seconds; and against any all-failure
environment the loop never returns, so join_network only ever returns to its
caller on success. -/
theorem join_backoff (outcomes : List Bool) (k : Nat)
    (hpre : ∀ j, j < k → outcomes[j]? = some false)
    (hk : outcomes[k]? = some true)
    (allFail : List Bool) (hall : ∀ b ∈ allFail, b = false) :
    join_network outcomes 0 =
      some (((List.range k).map (fun i =>
        [JoinEvent.attempt, JoinEvent.wait (2 ^ min i 11)])).flatten
        ++ [JoinEvent.attempt]) ∧
    (((List.range k).map (fun i =>
        [JoinEvent.attempt, JoinEvent.wait (2 ^ min i 11)])).flatten
        ++ [JoinEvent.attempt]).head? = some JoinEvent.attempt ∧
    join_network allFail 0 = none := by
  have htrace : joinTraceFrom 0 k =
      ((List.range k).map (fun i =>
        [JoinEvent.attempt, JoinEvent.wait (2 ^ min i 11)])).flatten
        ++ [JoinEvent.attempt] := by
    unfold joinTraceFrom
    simp [Nat.zero_add]
  refine ⟨?_, ?_, join_network_all_false allFail 0 hall⟩
  · rw [join_network_trace k outcomes 0 (by omega) hpre hk, htrace]
  · rw [← htrace]
    cases k with
    | zero => rfl
    | succ k => rw [joinTraceFrom_succ 0 k (by omega)]; rfl

/-- C3 witness: two failures followed by a success give the trace
attempt, wait 1, attempt, wait 2, attempt; an all-failure list of three
outcomes leaves the loop running. -/
theorem join_backoff_witness :
    join_network [false, false, true] 0 =
      some (((List.range 2).map (fun i =>
        [JoinEvent.attempt, JoinEvent.wait (2 ^ min i 11)])).flatten
        ++ [JoinEvent.attempt]) ∧
    (((List.range 2).map (fun i =>
        [JoinEvent.attempt, JoinEvent.wait (2 ^ min i 11)])).flatten
        ++ [JoinEvent.attempt]).head? = some JoinEvent.attempt ∧
    join_network [false, false, false] 0 = none :=
  join_backoff [false, false, true] 2 (by decide) (by decide)
    [false, false, false] (by decide)

/-- C7: the meter-id parser applied to the literal identifier sentence yields
74892473, and the energy parser applied to the literal energy sentence yields
exactly 1234.567 as a rational. -/
theorem meter_field_parsers :
    parse_meter_id "C.1(0000000074892473)\r\n".data = some 74892473 ∧
    parse_energy_value "1.8.0(0001234.567*kWh)\r\n".data =
      some ((1234567 : ℚ) / 1000) := by
  constructor
  · decide
  · have h : parse_energy_fields "1.8.0(0001234.567*kWh)\r\n".data =
        some (1234, 567, 3) := by
      decide
    rw [parse_energy_value, h, Option.map_some']
    norm_num

/-- Helper: the framing loop returns only when it has just consumed a
linefeed, and the consumed bytes before that linefeed contain none. -/
theorem readSentenceLoop_some (stream : List Nat) :
    ∀ buf out rest, readSentenceLoop stream buf = some (out, rest) →
      ∃ pre, stream = pre ++ 10 :: rest ∧ ∀ b ∈ pre, b ≠ 10 := by
  induction stream with
  | nil => intro buf out rest h; simp [readSentenceLoop] at h
  | cons b s ih =>
    intro buf out rest h
    rw [readSentenceLoop] at h
    by_cases hb : b = 10
    · subst hb
      rw [if_pos rfl] at h
      refine ⟨[], ?_, by simp⟩
      simpa using congrArg (fun p => 10 :: p.2) (Option.some.inj h)
    · rw [if_neg hb] at h
      have step : ∃ buf2, readSentenceLoop s buf2 = some (out, rest) := by
        by_cases hfull : buf.length + 1 = METER_SENTENCE_LENGTH
        · rw [if_pos hfull] at h; exact ⟨[], h⟩
        · rw [if_neg hfull] at h; exact ⟨buf ++ [b], h⟩
      obtain ⟨buf2, h2⟩ := step
      obtain ⟨pre, hs, hnolf⟩ := ih buf2 out rest h2
      refine ⟨b :: pre, by rw [hs]; rfl, ?_⟩
      intro x hx
      rcases List.mem_cons.mp hx with hx | hx
      · subst hx; exact hb
      · exact hnolf x hx

/-- Helper: a stream with no linefeed never makes the framing loop return. -/
theorem readSentenceLoop_none (stream : List Nat) :
    ∀ buf, (∀ b ∈ stream, b ≠ 10) → readSentenceLoop stream buf = none := by
  induction stream with
  | nil => intro buf _; rfl
  | cons b s ih =>
    intro buf h
    have hb : b ≠ 10 := h b (List.mem_cons_self b s)
    have hs : ∀ x ∈ s, x ≠ 10 := fun x hx => h x (List.mem_cons_of_mem _ hx)
    rw [readSentenceLoop, if_neg hb]
    by_cases hfull : buf.length + 1 = METER_SENTENCE_LENGTH
    · rw [if_pos hfull]; exact ih [] hs
    · rw [if_neg hfull]; exact ih (buf ++ [b]) hs

/-- Helper: filling the rest of the buffer with non-linefeed bytes discards
the buffer and restarts the loop from an empty buffer on the remaining
stream. -/
theorem readSentenceLoop_reset (junk : List Nat) :
    ∀ (buf tail : List Nat), buf.length < METER_SENTENCE_LENGTH →
      buf.length + junk.length = METER_SENTENCE_LENGTH →
      (∀ b ∈ junk, b ≠ 10) →
      readSentenceLoop (junk ++ tail) buf = readSentenceLoop tail [] := by
  induction junk with
  | nil =>
    intro buf tail hlt hlen _
    simp only [List.length_nil, Nat.add_zero] at hlen
    omega
  | cons j js ih =>
    intro buf tail hlt hlen hnolf
    have hj : j ≠ 10 := hnolf j (List.mem_cons_self j js)
    have hjs : ∀ b ∈ js, b ≠ 10 :=
      fun b hb => hnolf b (List.mem_cons_of_mem _ hb)
    simp only [List.cons_append]
    rw [readSentenceLoop, if_neg hj]
    by_cases hfull : buf.length + 1 = METER_SENTENCE_LENGTH
    · rw [if_pos hfull]
      have hjs0 : js.length = 0 := by
        simp only [List.length_cons] at hlen
        omega
      rw [List.eq_nil_of_length_eq_zero hjs0]
      rfl
    · rw [if_neg hfull]
      have hlt2 : (buf ++ [j]).length < METER_SENTENCE_LENGTH := by
        simp only [List.length_append, List.length_cons,
          List.length_nil] at hlen ⊢
        omega
      have hlen2 : (buf ++ [j]).length + js.length =
          METER_SENTENCE_LENGTH := by
        simp only [List.length_append, List.length_cons,
          List.length_nil] at hlen ⊢
        omega
      exact ih (buf ++ [j]) tail hlt2 hlen2 hjs

/-- C8: the sentence reader returns exactly when the byte just read is a
linefeed (the consumed bytes before it contain no linefeed and the rest of
the stream is handed back untouched); a stream without any linefeed never
makes it return; and 64 non-linefeed bytes fill the buffer, which is then
discarded and framing restarts from an empty buffer on the remaining stream,
so a framing failure does not terminate the read loop. -/
theorem sentence_framing (stream out rest : List Nat)
    (hret : read_meter_sentence stream = some (out, rest))
    (noLf : List Nat) (hnolf : ∀ b ∈ noLf, b ≠ 10)
    (junk tail : List Nat) (hjlen : junk.length = 64)
    (hjnolf : ∀ b ∈ junk, b ≠ 10) :
    (∃ pre, stream = pre ++ 10 :: rest ∧ ∀ b ∈ pre, b ≠ 10) ∧
    read_meter_sentence noLf = none ∧
    read_meter_sentence (junk ++ tail) = read_meter_sentence tail := by
  refine ⟨readSentenceLoop_some stream [] out rest hret,
    readSentenceLoop_none noLf [] hnolf, ?_⟩
  unfold read_meter_sentence
  exact readSentenceLoop_reset junk [] tail (by decide)
    (by simpa [METER_SENTENCE_LENGTH] using hjlen) hjnolf

/-- C8 witness: the reader returns on the stream 65, 66, 10 and resynchronizes
after 64 bytes of the value 65. -/
theorem sentence_framing_witness :
    (∃ pre, [65, 66, 10] = pre ++ 10 :: ([] : List Nat) ∧
      ∀ b ∈ pre, b ≠ 10) ∧
    read_meter_sentence [65] = none ∧
    read_meter_sentence (List.replicate 64 65 ++ [66, 10]) =
      read_meter_sentence [66, 10] :=
  sentence_framing [65, 66, 10]
    ([65, 66, 10] ++ List.replicate (METER_SENTENCE_LENGTH - 3) 0) []
    (by decide) [65] (by decide) (List.replicate 64 65) [66, 10]
    (by decide) (by decide)

/-- Helper: a run of sentences none of which starts with 1.8 or 2.8 never
makes the sentence loop return. -/
theorem getDataLoop_none (sentences : List (List Char)) :
    ∀ result, (∀ s ∈ sentences, ¬ isTerminal s) →
      getDataLoop sentences result = none := by
  induction sentences with
  | nil => intro result _; rfl
  | cons s rest ih =>
    intro result h
    have hs : ¬ isTerminal s := h s (List.mem_cons_self s rest)
    have hrest : ∀ x ∈ rest, ¬ isTerminal x :=
      fun x hx => h x (List.mem_cons_of_mem _ hx)
    have h18 : ¬ s.take 3 = "1.8".data := fun hc => hs (Or.inl hc)
    have h28 : ¬ s.take 3 = "2.8".data := fun hc => hs (Or.inr hc)
    rw [getDataLoop]
    by_cases hc1 : s.take 3 = "C.1".data
    · rw [if_pos hc1]; exact ih _ hrest
    · rw [if_neg hc1, if_neg h18, if_neg h28]; exact ih _ hrest

/-- Helper: the first sentence starting with 1.8 or 2.8 makes the loop return
immediately, and everything after it is never examined. -/
theorem getDataLoop_stops (pre : List (List Char)) :
    ∀ (t : List Char) (post : List (List Char)) (result : MeterData),
      (∀ s ∈ pre, ¬ isTerminal s) → isTerminal t →
      getDataLoop (pre ++ t :: post) result =
        getDataLoop (pre ++ [t]) result ∧
      (getDataLoop (pre ++ [t]) result).isSome = true := by
  induction pre with
  | nil =>
    intro t post result _ ht
    have hc1 : ¬ t.take 3 = "C.1".data := by
      rcases ht with h | h <;> rw [h] <;> decide
    simp only [List.nil_append]
    rw [getDataLoop, getDataLoop, if_neg hc1, if_neg hc1]
    rcases ht with h | h
    · rw [if_pos h, if_pos h]
      exact ⟨rfl, rfl⟩
    · have h18 : ¬ t.take 3 = "1.8".data := by
        rw [h]; decide
      rw [if_neg h18, if_neg h18, if_pos h, if_pos h]
      exact ⟨rfl, rfl⟩
  | cons s pre ih =>
    intro t post result h ht
    have hs : ¬ isTerminal s := h s (List.mem_cons_self s pre)
    have hpre : ∀ x ∈ pre, ¬ isTerminal x :=
      fun x hx => h x (List.mem_cons_of_mem _ hx)
    have h18 : ¬ s.take 3 = "1.8".data := fun hc => hs (Or.inl hc)
    have h28 : ¬ s.take 3 = "2.8".data := fun hc => hs (Or.inr hc)
    by_cases hc1 : s.take 3 = "C.1".data
    · have e1 : getDataLoop ((s :: pre) ++ t :: post) result =
          getDataLoop (pre ++ t :: post)
            { result with
              meter_id := (parse_meter_id s).getD result.meter_id } := by
        simp only [List.cons_append]
        rw [getDataLoop, if_pos hc1]
      have e2 : getDataLoop ((s :: pre) ++ [t]) result =
          getDataLoop (pre ++ [t])
            { result with
              meter_id := (parse_meter_id s).getD result.meter_id } := by
        simp only [List.cons_append]
        rw [getDataLoop, if_pos hc1]
      obtain ⟨ha, hb⟩ := ih t post
        { result with meter_id := (parse_meter_id s).getD result.meter_id }
        hpre ht
      exact ⟨by rw [e1, e2, ha], by rw [e2]; exact hb⟩
    · have e1 : getDataLoop ((s :: pre) ++ t :: post) result =
          getDataLoop (pre ++ t :: post) result := by
        simp only [List.cons_append]
        rw [getDataLoop, if_neg hc1, if_neg h18, if_neg h28]
      have e2 : getDataLoop ((s :: pre) ++ [t]) result =
          getDataLoop (pre ++ [t]) result := by
        simp only [List.cons_append]
        rw [getDataLoop, if_neg hc1, if_neg h18, if_neg h28]
      obtain ⟨ha, hb⟩ := ih t post result hpre ht
      exact ⟨by rw [e1, e2, ha], by rw [e2]; exact hb⟩

/-- C9: get_data returns exactly at the first sentence whose three-character
head is 1.8 or 2.8 — every sentence after it, including a later 2.8 after a
1.8 or the reverse, is never processed and cannot affect the result — and a
sentence list containing only other sentences (meter-id sentences included)
never makes it return. -/
theorem read_sequence_termination (pre : List (List Char)) (t : List Char)
    (post : List (List Char))
    (hpre : ∀ s ∈ pre, ¬ isTerminal s) (ht : isTerminal t)
    (others : List (List Char)) (hothers : ∀ s ∈ others, ¬ isTerminal s) :
    get_data (pre ++ t :: post) = get_data (pre ++ [t]) ∧
    (get_data (pre ++ [t])).isSome = true ∧
    get_data others = none := by
  obtain ⟨heq, hsome⟩ := getDataLoop_stops pre t post meterDataDefault hpre ht
  exact ⟨heq, hsome, getDataLoop_none others meterDataDefault hothers⟩

/-- C9 witness: a telegram with a meter-id sentence, then the energy-in
sentence, then an energy-out sentence: the loop stops at the energy-in
sentence, the later energy-out sentence changes nothing, and a telegram of
only meter-id sentences never returns. -/
theorem read_sequence_termination_witness :
    get_data (["C.1(0000000074892473)\r\n".data] ++
        "1.8.0(0001234.567*kWh)\r\n".data ::
        ["2.8.0(0000010.000*kWh)\r\n".data]) =
      get_data (["C.1(0000000074892473)\r\n".data] ++
        ["1.8.0(0001234.567*kWh)\r\n".data]) ∧
    (get_data (["C.1(0000000074892473)\r\n".data] ++
        ["1.8.0(0001234.567*kWh)\r\n".data])).isSome = true ∧
    get_data ["C.1(0000000074892473)\r\n".data] = none :=
  read_sequence_termination ["C.1(0000000074892473)\r\n".data]
    "1.8.0(0001234.567*kWh)\r\n".data ["2.8.0(0000010.000*kWh)\r\n".data]
    (by decide) (by decide) ["C.1(0000000074892473)\r\n".data] (by decide)

end PowermeterLora
